import Mathlib

/-!
Verification of the karaoke player component (frontend KaraokePlayer).

The embedding below translates the playback-synchronization and
job-orchestration logic of the player component into Lean:

* `groupWordsIntoLines` embeds the line-grouping function
  (source lines 246-271 of the player component);
* `findFrom` / `findActiveToken` embed the active-token scan inside
  `updateProgress` (source lines 168-204);
* `updateProgress` and `handleLyricClick` embed the per-tick progress
  update and the click-to-seek handler (source lines 168-204, 217-237);
* `pollStep` / `pollTick` / `orchRun` embed the polling loop and the
  300-second timeout of `processSong` (source lines 88-151);
* `rawErrorMsg` / `classifyError` embed the error-message classification
  (source lines 115-124).

Times are rationals (the JavaScript sources use floating point doubles,
but every constant involved is a short decimal literal, so exact
rational arithmetic models all reachable comparisons faithfully).
-/

namespace Karaoke

/-- One transcribed word.  Source fields: `text`, `start`, `end`
(the reserved word `end` is rendered as `endSec`). -/
structure Token where
  text : String
  start : ℚ
  endSec : ℚ
deriving DecidableEq

/-- Placeholder token used only as the default of `List.headD`. -/
def dummyToken : Token := { text := "", start := 0, endSec := 0 }

/-- Punctuation characters of the source regex `[.!?,;:]$`. -/
def punctuationChars : List Char := ['.', '!', '?', ',', ';', ':']

/-- `/[.!?,;:]$/.test(word.text)` : does the text end with one of the
punctuation characters? -/
def endsWithPunct (text : String) : Bool :=
  match text.toList.getLast? with
  | some c => punctuationChars.contains c
  | none => false

/-- The line-closing condition of `groupWordsIntoLines`
(source lines 260-264): `endsWithPunctuation || largeGap || lineTooLong
|| !nextWord`, where `len` is the length of the current line after the
word has been pushed (`lineTooLong = currentLine.length >= 12`). -/
def lineBreakCond (word : Token) (nextWord : Option Token) (len : ℕ) : Bool :=
  endsWithPunct word.text ||
  (match nextWord with
   | some nw => decide (nw.start - word.endSec > 0.8)
   | none => false) ||
  decide (12 ≤ len) ||
  nextWord.isNone

/-- The `forEach` loop of `groupWordsIntoLines`: `cur` is the current
line accumulated so far, the second argument is the remaining stream of
(index, word) pairs; on each word, push it onto the current line, then
close the line when `lineBreakCond` holds. -/
def groupGo : List (ℕ × Token) → List (ℕ × Token) → List (List (ℕ × Token))
  | _, [] => []
  | cur, iw :: rest =>
    if lineBreakCond iw.2 (rest.head?.map Prod.snd) (cur ++ [iw]).length then
      (cur ++ [iw]) :: groupGo [] rest
    else
      groupGo (cur ++ [iw]) rest

/-- `groupWordsIntoLines` (source lines 246-271): group the lyric words
into display lines; each pushed element is the word paired with its
index in the full sequence (the source spreads `\x7b...word, index\x7d`). -/
def groupWordsIntoLines (lyrics : List Token) : List (List (ℕ × Token)) :=
  groupGo [] lyrics.enum

/-- Reference formulation of the line-closing rule in the words of the
specification: close when the text ends with punctuation, or the gap to
the next word exceeds 0.8 s, or the current line has accumulated exactly
12 tokens, or there is no next word.  It differs from `lineBreakCond`
only in using `len = 12` where the source uses `len >= 12`. -/
def specLineBreak (word : Token) (nextWord : Option Token) (len : ℕ) : Bool :=
  endsWithPunct word.text ||
  (match nextWord with
   | some nw => decide (nw.start - word.endSec > 0.8)
   | none => false) ||
  decide (len = 12) ||
  nextWord.isNone

/-- Reference grouping loop driven by `specLineBreak`. -/
def specGroupGo : List (ℕ × Token) → List (ℕ × Token) → List (List (ℕ × Token))
  | _, [] => []
  | cur, iw :: rest =>
    if specLineBreak iw.2 (rest.head?.map Prod.snd) (cur ++ [iw]).length then
      (cur ++ [iw]) :: specGroupGo [] rest
    else
      specGroupGo (cur ++ [iw]) rest

/-- Reference grouping function following the wording of the
specification, to be compared with `groupWordsIntoLines`. -/
def specGroupIntoLines (lyrics : List Token) : List (List (ℕ × Token)) :=
  specGroupGo [] lyrics.enum

/-- The scan loop of `updateProgress` (source lines 177-198), recursion
over the remaining tokens: a word is selected when
`syncedTime >= word.start` and either there is no next word, or
`syncedTime < nextWord.start`; the result is the offset of the selected
word in the remaining list.  The source breaks out of the loop at the
first selected word, which this recursion mirrors. -/
def findFrom (s : ℚ) : List Token → Option ℕ
  | [] => none
  | [w] => if w.start ≤ s then some 0 else none
  | w :: next :: rest =>
    if w.start ≤ s ∧ s < next.start then some 0
    else (findFrom s (next :: rest)).map (fun j => j + 1)

/-- The active-token scan of `updateProgress`: computes
`syncedTime = currentTime + syncOffset` and runs the scan loop;
`-1` when no word is selected (`foundIndex` stays `-1`). -/
def findActiveToken (tokens : List Token) (currentTime syncOffset : ℚ) : Int :=
  match findFrom (currentTime + syncOffset) tokens with
  | none => -1
  | some i => i

/-- The selection predicate of the specification, at index `i`:
`syncedTime >= tokens[i].start` and (`i` is the last index or
`syncedTime < tokens[i+1].start`). -/
def activeAt (tokens : List Token) (s : ℚ) (i : ℕ) : Bool :=
  match tokens[i]? with
  | none => false
  | some w =>
    decide (w.start ≤ s) &&
    (match tokens[i + 1]? with
     | none => true
     | some next => decide (s < next.start))

/-- The 100 ms progress-timer interval (source line 163 and 234). -/
def progressIntervalMs : ℕ := 100

/-- Mutable per-session playback state of the player component:
the React state variables, the audio element position and play state,
and the progress interval handle (`none` when no timer runs). -/
structure PlayerState where
  currentTime : ℚ
  currentWordIndex : Int
  syncOffset : ℚ
  isPlaying : Bool
  autoScrollEnabled : Bool
  audioPosition : ℚ
  audioPlaying : Bool
  progressTimer : Option ℕ
  audioLoaded : Bool

/-- `handleLyricClick(word, index)` (source lines 217-237): no-op when
the audio element is missing; otherwise seek audio and `currentTime` to
`word.start - syncOffset`, set the active index immediately, re-enable
auto-scroll, and when not playing, start playback and the 100 ms
progress timer. -/
def handleLyricClick (st : PlayerState) (word : Token) (index : ℕ) : PlayerState :=
  if st.audioLoaded then
    let targetTime := word.start - st.syncOffset
    let st1 := { st with
      audioPosition := targetTime
      currentTime := targetTime
      currentWordIndex := (index : Int)
      autoScrollEnabled := true }
    if st1.isPlaying then st1
    else { st1 with
      audioPlaying := true
      progressTimer := some progressIntervalMs
      isPlaying := true }
  else st

/-- `updateProgress` (source lines 168-204): guarded on the audio
element and the loaded lyrics; reads the audio position, stores it in
`currentTime`, runs the active-token scan, and updates
`currentWordIndex` only when the scan found a word (`foundIndex !== -1`)
and it differs from the stored index. -/
def updateProgress (karaokeLyrics : Option (List Token)) (st : PlayerState) : PlayerState :=
  match karaokeLyrics with
  | none => st
  | some lyrics =>
    if st.audioLoaded then
      let actualTime := st.audioPosition
      let foundIndex := findActiveToken lyrics actualTime st.syncOffset
      let st1 := { st with currentTime := actualTime }
      if foundIndex ≠ -1 ∧ foundIndex ≠ st.currentWordIndex then
        { st1 with currentWordIndex := foundIndex }
      else st1
    else st

/-- Source line 118 substring: phrase of a download failure. -/
def downloadPhrase1 : String := "Downloaded file not found"

/-- Source line 118 substring: second phrase of a download failure. -/
def downloadPhrase2 : String := "downloaded file is empty"

/-- Source line 120 substring: phrase of a conversion failure. -/
def convertPhrase : String := "Failed to convert"

/-- Source line 122 substring: first phrase of a separation failure. -/
def separationPhrase1 : String := "Separation"

/-- Source line 122 substring: second phrase of a separation failure. -/
def separationPhrase2 : String := "Demucs"

/-- User-facing text for an unavailable download (source line 119). -/
def downloadErrorText : String :=
  "❌ This video cannot be downloaded. It may be restricted, age-gated, or unavailable in your region. Please try a different song."

/-- User-facing text for a conversion failure (source line 121). -/
def convertErrorText : String :=
  "❌ Failed to convert audio format. This video may be incompatible. Please try a different song."

/-- User-facing text for a separation failure (source line 123). -/
def separationErrorText : String :=
  "❌ Failed to separate vocals and instrumental. Please try a different song."

/-- Default raw error text (source line 115). -/
def defaultErrorText : String := "Processing failed"

/-- Timeout error text (source line 137). -/
def timeoutErrorText : String := "Processing timeout. Please try again."

/-- Tail-scan for one occurrence of `pat` inside a character list:
model of the JavaScript `String.prototype.includes`. -/
def includesList (pat : List Char) : List Char → Bool
  | [] => pat.isEmpty
  | c :: rest => pat.isPrefixOf (c :: rest) || includesList pat rest

/-- `s.includes(pat)` for strings. -/
def includesStr (s pat : String) : Bool :=
  includesList pat.toList s.toList

/-- `statusResponse.data.error || statusResponse.data.message ||
defaultErrorText` (source line 115); the JavaScript `||` treats the
empty string and an absent field as falsy. -/
def rawErrorMsg (error message : Option String) : String :=
  let e := error.getD ""
  if e ≠ "" then e
  else
    let m := message.getD ""
    if m ≠ "" then m else defaultErrorText

/-- The substring classification chain of `processSong`
(source lines 117-124). -/
def classifyError (errorMsg : String) : String :=
  if includesStr errorMsg downloadPhrase1 || includesStr errorMsg downloadPhrase2 then
    downloadErrorText
  else if includesStr errorMsg convertPhrase then
    convertErrorText
  else if includesStr errorMsg separationPhrase1 || includesStr errorMsg separationPhrase2 then
    separationErrorText
  else errorMsg

/-- One poll response body from `GET /status/:id`. -/
structure PollResponse where
  status : String
  error : Option String
  message : Option String

/-- A response status is terminal when it is one of the strings the
source reacts to: `ready` (line 108) or `failed` / `error` (line 113). -/
def isTerminal (r : PollResponse) : Bool :=
  r.status = "ready" || r.status = "failed" || r.status = "error"

/-- The poll interval of `processSong` in milliseconds (source line 131). -/
def pollIntervalMs : ℕ := 2000

/-- The polling timeout in milliseconds (source line 140). -/
def timeoutMs : ℕ := 300000

/-- The tick at which the watchdog fires when each tick is one poll
interval: `300000 / 2000 = 150`. -/
def timeoutTicks : ℕ := timeoutMs / pollIntervalMs

/-- State of one polling session of `processSong` after the processing
request was accepted: whether karaoke data was stored, the current error
message, the `isProcessing` flag, whether the poll interval and the
watchdog timeout are still scheduled, and the list of ticks at which a
polling request was issued (instrumentation of the side effect). -/
structure OrchState where
  karaokeData : Bool
  errorMsg : Option String
  isProcessing : Bool
  pollActive : Bool
  timeoutActive : Bool
  polls : List ℕ

/-- Session state right after `POST /process/:id` succeeded: polling and
watchdog scheduled, still processing, no data and no error. -/
def orchInit : OrchState :=
  { karaokeData := false
    errorMsg := none
    isProcessing := true
    pollActive := true
    timeoutActive := true
    polls := [] }

/-- One body of the poll interval callback (source lines 104-131):
`none` models a failed request, which the catch block swallows; a
`ready` status clears the interval, stores the karaoke data and ends
processing; a `failed` or `error` status clears the interval and stores
the classified error; any other status leaves the state unchanged. -/
def pollStep (resp : Option PollResponse) (st : OrchState) : OrchState :=
  match resp with
  | none => st
  | some r =>
    if r.status = "ready" then
      { st with pollActive := false, karaokeData := true, isProcessing := false }
    else if r.status = "failed" ∨ r.status = "error" then
      { st with
        pollActive := false
        errorMsg := some (classifyError (rawErrorMsg r.error r.message))
        isProcessing := false }
    else st

/-- The watchdog callback (source lines 134-140): clear the poll
interval, and when still processing record the timeout error and end
processing.  In the source the guard reads the `isProcessing` binding
captured when the component mounted, which is `true`; in every run in
which no terminal response arrived the stored flag is still `true` at
this point, so the two readings agree on the runs considered here. -/
def timeoutStep (st : OrchState) : OrchState :=
  let st1 := { st with pollActive := false, timeoutActive := false }
  if st1.isProcessing then
    { st1 with errorMsg := some timeoutErrorText, isProcessing := false }
  else st1

/-- One tick of wall-clock time, where tick `k` stands for the instant
`2000 * k` milliseconds after polling began: the poll interval fires
when still scheduled (`respond k` is the response of the request issued
at tick `k`), and at tick `timeoutTicks` the watchdog fires afterwards
(both timers were registered in that order). -/
def pollTick (respond : ℕ → Option PollResponse) (k : ℕ) (st : OrchState) : OrchState :=
  let st1 :=
    if st.pollActive then pollStep (respond k) { st with polls := st.polls ++ [k] }
    else st
  if k = timeoutTicks ∧ st1.timeoutActive then timeoutStep st1 else st1

/-- The polling session after `n` ticks. -/
def orchRun (respond : ℕ → Option PollResponse) : ℕ → OrchState
  | 0 => orchInit
  | n + 1 => pollTick respond (n + 1) (orchRun respond n)

/-- Scenario tokens of the specification:
`[\x7btext:"Hello",start:1.0,end:1.4\x7d, \x7btext:"world",start:1.5,end:2.0\x7d]`. -/
def scenarioTokens : List Token :=
  [ { text := "Hello", start := 1, endSec := 1.4 },
    { text := "world", start := 1.5, endSec := 2 } ]

/-- A token sequence that is not sorted by start time. -/
def cexTokens : List Token :=
  [ { text := "late", start := 5, endSec := 6 },
    { text := "early", start := 1, endSec := 2 } ]

/-- A backend error message containing both a download phrase and a
conversion phrase. -/
def cexErrMsg : String :=
  "Downloaded file not found even though we Failed to convert the audio"

/-- A backend error message containing only a conversion phrase. -/
def convertOnlyMsg : String := "Whisper step Failed to convert the audio sample"

/-- A poll response schedule that always reports `processing`. -/
def respondProcessing : ℕ → Option PollResponse :=
  fun _ => some { status := "processing", error := none, message := none }

/-- The clicked token of Scenario D (`start = 42.3`). -/
def scenarioDToken : Token := { text := "word", start := 42.3, endSec := 43 }

/-- A paused player with sync offset `0.2` and loaded audio. -/
def pausedState : PlayerState :=
  { currentTime := 0
    currentWordIndex := -1
    syncOffset := 0.2
    isPlaying := false
    autoScrollEnabled := false
    audioPosition := 0
    audioPlaying := false
    progressTimer := none
    audioLoaded := true }

/-- A playing player whose stored active index is `3` and whose audio
position precedes every token start of `singleToken`. -/
def tickingState : PlayerState :=
  { currentTime := 0
    currentWordIndex := 3
    syncOffset := 0
    isPlaying := true
    autoScrollEnabled := true
    audioPosition := 0
    audioPlaying := true
    progressTimer := some progressIntervalMs
    audioLoaded := true }

/-- A one-token sequence starting at `1`. -/
def singleToken : List Token := [{ text := "a", start := 1, endSec := 2 }]

/-- Unfolding equation of `groupGo` on an empty stream. -/
theorem groupGo_nil (cur : List (ℕ × Token)) : groupGo cur [] = [] := rfl

/-- Unfolding equation of `groupGo` on a word followed by a stream. -/
theorem groupGo_cons (cur : List (ℕ × Token)) (iw : ℕ × Token)
    (rest : List (ℕ × Token)) :
    groupGo cur (iw :: rest) =
      if lineBreakCond iw.2 (rest.head?.map Prod.snd) (cur ++ [iw]).length then
        (cur ++ [iw]) :: groupGo [] rest
      else groupGo (cur ++ [iw]) rest := rfl

/-- Unfolding equation of `specGroupGo` on a word followed by a stream. -/
theorem specGroupGo_cons (cur : List (ℕ × Token)) (iw : ℕ × Token)
    (rest : List (ℕ × Token)) :
    specGroupGo cur (iw :: rest) =
      if specLineBreak iw.2 (rest.head?.map Prod.snd) (cur ++ [iw]).length then
        (cur ++ [iw]) :: specGroupGo [] rest
      else specGroupGo (cur ++ [iw]) rest := rfl

/-- Flattening the grouped lines recovers the accumulated line followed
by the remaining stream: every word pushed is eventually emitted. -/
theorem groupGo_flatten (l : List (ℕ × Token)) :
    ∀ cur, l ≠ [] → (groupGo cur l).flatten = cur ++ l := by
  induction l with
  | nil => intro cur h; exact absurd rfl h
  | cons iw rest ih =>
    intro cur _
    rw [groupGo_cons]
    cases rest with
    | nil =>
      have hb : lineBreakCond iw.2 ((List.nil (α := ℕ × Token)).head?.map Prod.snd)
          (cur ++ [iw]).length = true := by
        simp [lineBreakCond]
      rw [if_pos hb, groupGo_nil]
      simp
    | cons jw rest2 =>
      by_cases hb : lineBreakCond iw.2 ((jw :: rest2).head?.map Prod.snd)
          (cur ++ [iw]).length = true
      · rw [if_pos hb, List.flatten_cons, ih [] (by simp)]
        simp
      · rw [if_neg hb, ih (cur ++ [iw]) (by simp)]
        simp

/-- Every line emitted by the grouping loop is non-empty. -/
theorem groupGo_ne_nil (l : List (ℕ × Token)) :
    ∀ cur ln, ln ∈ groupGo cur l → ln ≠ [] := by
  induction l with
  | nil =>
    intro cur ln h
    rw [groupGo_nil] at h
    simp at h
  | cons iw rest ih =>
    intro cur ln h
    rw [groupGo_cons] at h
    by_cases hb : lineBreakCond iw.2 (rest.head?.map Prod.snd) (cur ++ [iw]).length = true
    · rw [if_pos hb] at h
      rcases List.mem_cons.mp h with h1 | h1
      · subst h1; simp
      · exact ih [] ln h1
    · rw [if_neg hb] at h
      exact ih (cur ++ [iw]) ln h

/-- Claim C2: `groupWordsIntoLines` returns a partition: every line is
non-empty, and concatenating the lines in order reproduces the full
indexed token sequence exactly (hence every token appears in exactly one
line, in the original order); projecting away the indices recovers the
original token sequence. -/
theorem groupWordsIntoLines_partition (lyrics : List Token) :
    (∀ line ∈ groupWordsIntoLines lyrics, line ≠ []) ∧
    (groupWordsIntoLines lyrics).flatten = lyrics.enum ∧
    (groupWordsIntoLines lyrics).flatten.map Prod.snd = lyrics := by
  have hflat : (groupWordsIntoLines lyrics).flatten = lyrics.enum := by
    unfold groupWordsIntoLines
    cases lyrics with
    | nil => simp [groupGo_nil]
    | cons a as =>
      rw [groupGo_flatten _ [] (by simp [List.enum_cons])]
      simp
  refine ⟨fun line h => groupGo_ne_nil _ _ _ h, hflat, ?_⟩
  rw [hflat]
  exact List.enumFrom_map_snd 0 lyrics

/-- Below the 12-token cap the source closing condition and the
specification closing condition agree (`12 <= len` versus `len = 12`). -/
theorem lineBreakCond_eq_spec (w : Token) (nextWord : Option Token) (len : ℕ)
    (h : len ≤ 12) : lineBreakCond w nextWord len = specLineBreak w nextWord len := by
  unfold lineBreakCond specLineBreak
  have hd : decide (12 ≤ len) = decide (len = 12) := by
    by_cases h2 : len = 12
    · simp [h2]
    · have h3 : ¬ (12 ≤ len) := by omega
      simp [h2, h3]
  rw [hd]

/-- The grouping loop driven by the source condition equals the loop
driven by the specification condition whenever the accumulated line has
at most 11 words (which is invariant: lines close at 12). -/
theorem groupGo_eq_spec (l : List (ℕ × Token)) :
    ∀ cur, cur.length ≤ 11 → groupGo cur l = specGroupGo cur l := by
  induction l with
  | nil => intro cur _; rfl
  | cons iw rest ih =>
    intro cur hc
    have hlen : (cur ++ [iw]).length ≤ 12 := by
      simp only [List.length_append, List.length_singleton]
      omega
    have heq := lineBreakCond_eq_spec iw.2 (rest.head?.map Prod.snd) _ hlen
    rw [groupGo_cons, specGroupGo_cons, heq]
    by_cases hb : specLineBreak iw.2 (rest.head?.map Prod.snd) (cur ++ [iw]).length = true
    · rw [if_pos hb, if_pos hb, ih [] (by simp)]
    · rw [if_neg hb, if_neg hb]
      refine ih (cur ++ [iw]) ?_
      have h12 : (cur ++ [iw]).length ≠ 12 := by
        intro hEq
        apply hb
        unfold specLineBreak
        simp [hEq]
      simp only [List.length_append, List.length_singleton] at h12 ⊢
      omega

/-- Claim C6: the grouping closes the current line immediately after a
token exactly when the token text ends with one of `. ! ? , ; :`, or the
gap to the next token exceeds 0.8 seconds, or the current line has
accumulated 12 tokens, or the token is the last of the sequence:
the source grouping coincides with the reference grouping driven by
exactly that closing rule. -/
theorem groupWordsIntoLines_close_rule (lyrics : List Token) :
    groupWordsIntoLines lyrics = specGroupIntoLines lyrics :=
  groupGo_eq_spec _ [] (by simp)

/-- Claim C9: `groupWordsIntoLines` is a deterministic pure function of
the token sequence: it reads nothing but its argument (its embedding is
a plain function), so equal inputs give identical outputs. -/
theorem groupWordsIntoLines_deterministic (t1 t2 : List Token) (h : t1 = t2) :
    groupWordsIntoLines t1 = groupWordsIntoLines t2 := by rw [h]

/-- Witness for claim C9 at the scenario tokens. -/
theorem groupWordsIntoLines_deterministic_witness :
    scenarioTokens = scenarioTokens ∧
    groupWordsIntoLines scenarioTokens = groupWordsIntoLines scenarioTokens :=
  ⟨rfl, groupWordsIntoLines_deterministic scenarioTokens scenarioTokens rfl⟩

/-- Unfolding equation of `findFrom` on the empty sequence. -/
theorem findFrom_nil (s : ℚ) : findFrom s [] = none := rfl

/-- Unfolding equation of `findFrom` on a one-token sequence. -/
theorem findFrom_single (s : ℚ) (w : Token) :
    findFrom s [w] = if w.start ≤ s then some 0 else none := rfl

/-- Unfolding equation of `findFrom` on a sequence of two or more tokens. -/
theorem findFrom_cons2 (s : ℚ) (w next : Token) (rest : List Token) :
    findFrom s (w :: next :: rest) =
      if w.start ≤ s ∧ s < next.start then some 0
      else (findFrom s (next :: rest)).map (fun j => j + 1) := rfl

/-- Shifting the selection predicate past the head token. -/
theorem activeAt_shift (w : Token) (l : List Token) (s : ℚ) (i : ℕ) :
    activeAt (w :: l) s (i + 1) = activeAt l s i := by
  simp only [activeAt, List.getElem?_cons_succ]

/-- The selection predicate at index 0 of a one-token sequence. -/
theorem activeAt_zero_single (w : Token) (s : ℚ) :
    activeAt [w] s 0 = decide (w.start ≤ s) := by
  simp [activeAt]

/-- The selection predicate at index 0 of a sequence of two or more. -/
theorem activeAt_zero_two (w next : Token) (l : List Token) (s : ℚ) :
    activeAt (w :: next :: l) s 0 = (decide (w.start ≤ s) && decide (s < next.start)) := by
  simp [activeAt]

/-- Elimination form of the selection predicate. -/
theorem activeAt_elim (l : List Token) (s : ℚ) (i : ℕ)
    (h : activeAt l s i = true) :
    ∃ w, l[i]? = some w ∧ w.start ≤ s ∧
      ∀ nw, l[i + 1]? = some nw → s < nw.start := by
  unfold activeAt at h
  cases h1 : l[i]? with
  | none => rw [h1] at h; simp at h
  | some w =>
    rw [h1] at h
    cases h2 : l[i + 1]? with
    | none =>
      rw [h2] at h
      simp at h
      exact ⟨w, rfl, h, fun nw hnw => absurd hnw (by simp)⟩
    | some next =>
      rw [h2] at h
      simp at h
      refine ⟨w, rfl, h.1, fun nw hnw => ?_⟩
      injection hnw with e
      rw [← e]
      exact h.2

/-- Soundness of the scan: a returned offset satisfies the selection
predicate of the specification. -/
theorem findFrom_sound (l : List Token) (s : ℚ) :
    ∀ i, findFrom s l = some i → activeAt l s i = true := by
  induction l with
  | nil =>
    intro i h
    rw [findFrom_nil] at h
    exact absurd h (by simp)
  | cons w rest ih =>
    intro i h
    cases rest with
    | nil =>
      rw [findFrom_single] at h
      by_cases hs : w.start ≤ s
      · rw [if_pos hs] at h
        injection h with h2
        rw [← h2, activeAt_zero_single]
        exact decide_eq_true hs
      · rw [if_neg hs] at h
        exact absurd h (by simp)
    | cons next rest2 =>
      rw [findFrom_cons2] at h
      by_cases hc : w.start ≤ s ∧ s < next.start
      · rw [if_pos hc] at h
        injection h with h2
        rw [← h2, activeAt_zero_two]
        simp [hc.1, hc.2]
      · rw [if_neg hc] at h
        simp only [Option.map_eq_some'] at h
        obtain ⟨j, hj, hi⟩ := h
        rw [← hi, activeAt_shift]
        exact ih j hj

/-- Completeness of the scan: when some index satisfies the selection
predicate, the scan returns an offset at most that index. -/
theorem findFrom_complete (l : List Token) (s : ℚ) :
    ∀ i, activeAt l s i = true → ∃ j, j ≤ i ∧ findFrom s l = some j := by
  induction l with
  | nil =>
    intro i h
    simp [activeAt] at h
  | cons w rest ih =>
    intro i h
    cases i with
    | zero =>
      cases rest with
      | nil =>
        rw [activeAt_zero_single] at h
        exact ⟨0, le_refl 0, by rw [findFrom_single, if_pos (of_decide_eq_true h)]⟩
      | cons next rest2 =>
        rw [activeAt_zero_two] at h
        simp only [Bool.and_eq_true, decide_eq_true_eq] at h
        exact ⟨0, le_refl 0, by rw [findFrom_cons2, if_pos h]⟩
    | succ i2 =>
      cases rest with
      | nil =>
        exfalso
        simp [activeAt, List.getElem?_cons_succ] at h
      | cons next rest2 =>
        rw [activeAt_shift] at h
        obtain ⟨j, hj1, hj2⟩ := ih i2 h
        by_cases hc : w.start ≤ s ∧ s < next.start
        · exact ⟨0, Nat.zero_le _, by rw [findFrom_cons2, if_pos hc]⟩
        · refine ⟨j + 1, by omega, ?_⟩
          rw [findFrom_cons2, if_neg hc, hj2]
          rfl

/-- Existence: when some token starts no later than the synced time,
some index satisfies the selection predicate. -/
theorem findFrom_exists (s : ℚ) :
    ∀ (l : List Token) (w : Token), w ∈ l → w.start ≤ s →
      ∃ j, activeAt l s j = true := by
  intro l
  induction l with
  | nil =>
    intro w h
    simp at h
  | cons v rest ih =>
    intro w hw hws
    cases rest with
    | nil =>
      have hv : w = v := by simpa using hw
      refine ⟨0, ?_⟩
      rw [activeAt_zero_single]
      exact decide_eq_true (hv ▸ hws)
    | cons next rest2 =>
      rcases List.mem_cons.mp hw with h1 | h1
      · by_cases hn : s < next.start
        · refine ⟨0, ?_⟩
          rw [activeAt_zero_two]
          simp [h1 ▸ hws, hn]
        · obtain ⟨j, hj⟩ := ih next (List.mem_cons_self next rest2) (le_of_not_lt hn)
          exact ⟨j + 1, by rw [activeAt_shift]; exact hj⟩
      · obtain ⟨j, hj⟩ := ih w h1 hws
        exact ⟨j + 1, by rw [activeAt_shift]; exact hj⟩

/-- When every token starts strictly after the synced time, the scan
finds nothing. -/
theorem findFrom_none (s : ℚ) :
    ∀ (l : List Token), (∀ w ∈ l, s < w.start) → findFrom s l = none := by
  intro l
  induction l with
  | nil => intro _; rfl
  | cons w rest ih =>
    intro h
    cases rest with
    | nil =>
      rw [findFrom_single, if_neg]
      exact not_le.mpr (h w (by simp))
    | cons next rest2 =>
      rw [findFrom_cons2, if_neg]
      · rw [ih (fun v hv => h v (List.mem_cons_of_mem w hv))]
        rfl
      · intro hc
        exact absurd hc.1 (not_le.mpr (h w (by simp)))

/-- The scan result is `-1` or a token index, never anything below. -/
theorem findActiveToken_cases (l : List Token) (c o : ℚ) :
    findActiveToken l c o = -1 ∨ 0 ≤ findActiveToken l c o := by
  unfold findActiveToken
  cases findFrom (c + o) l with
  | none => exact Or.inl rfl
  | some j => exact Or.inr (Int.ofNat_nonneg j)

/-- Claim C1: on every non-empty token sequence the per-tick scan of
`updateProgress` selects exactly the token satisfying the rule of the
specification: when index `i` is the unique index with
`syncedTime >= tokens[i].start` and (`i` last or
`syncedTime < tokens[i+1].start`), the scan returns `i`. -/
theorem updateProgress_selects_active (tokens : List Token) (ct off : ℚ) (i : ℕ)
    (hne : tokens ≠ [])
    (hact : activeAt tokens (ct + off) i = true)
    (huniq : ∀ j, j ≠ i → activeAt tokens (ct + off) j = false) :
    findActiveToken tokens ct off = (i : Int) := by
  obtain ⟨j, hji, hj⟩ := findFrom_complete tokens (ct + off) i hact
  have hsound := findFrom_sound tokens (ct + off) j hj
  have hjeq : j = i := by
    by_contra hne2
    rw [huniq j hne2] at hsound
    exact Bool.false_ne_true hsound
  subst hjeq
  unfold findActiveToken
  rw [hj]

/-- Witness for claim C1: Scenario A, tokens Hello/world with
`currentTime = 1.6` and offset `0`, selected index `1`. -/
theorem updateProgress_selects_active_witness :
    activeAt scenarioTokens (1.6 + 0) 1 = true ∧
    findActiveToken scenarioTokens 1.6 0 = 1 := by
  refine ⟨by norm_num [activeAt, scenarioTokens],
    updateProgress_selects_active scenarioTokens 1.6 0 1
      (by simp [scenarioTokens]) (by norm_num [activeAt, scenarioTokens]) ?_⟩
  intro j hj
  match j with
  | 0 => norm_num [activeAt, scenarioTokens]
  | 1 => exact absurd rfl hj
  | n + 2 => simp [activeAt, scenarioTokens]

/-- Counterexample for claim C4 as stated: on a token sequence that is
not sorted by start time, the synced time `3` lies strictly before the
first token start `5`, yet the scan returns `1`, not `-1`. -/
theorem findActiveToken_before_first_cex :
    cexTokens ≠ [] ∧
    (3 : ℚ) + 0 < (cexTokens.headD dummyToken).start ∧
    findActiveToken cexTokens 3 0 ≠ -1 := by
  refine ⟨by simp [cexTokens], by norm_num [cexTokens], ?_⟩
  norm_num [findActiveToken, findFrom, cexTokens]

/-- Claim C4 (amended): the scan over the empty sequence yields `-1` for
every time and offset; and over every non-empty token sequence sorted by
start time (non-decreasing), a synced time strictly before the first
token start yields `-1`. -/
theorem findActiveToken_empty_and_before_first :
    (∀ ct off : ℚ, findActiveToken [] ct off = -1) ∧
    (∀ (tokens : List Token) (ct off : ℚ),
      List.Pairwise (fun a b : Token => a.start ≤ b.start) tokens →
      tokens ≠ [] →
      ct + off < (tokens.headD dummyToken).start →
      findActiveToken tokens ct off = -1) := by
  constructor
  · intro ct off; rfl
  · intro tokens ct off hsort hne hlt
    have hall : ∀ w ∈ tokens, ct + off < w.start := by
      cases tokens with
      | nil => intro w hw; simp at hw
      | cons a rest =>
        intro w hw
        have hlt2 : ct + off < a.start := by simpa using hlt
        rcases List.mem_cons.mp hw with h1 | h1
        · rw [h1]; exact hlt2
        · exact lt_of_lt_of_le hlt2 ((List.pairwise_cons.mp hsort).1 w h1)
    unfold findActiveToken
    rw [findFrom_none (ct + off) tokens hall]

/-- Witness for claim C4 (amended): the empty sequence, and Scenario B
(tokens Hello/world at `currentTime = 0.5`, offset `0`). -/
theorem findActiveToken_empty_and_before_first_witness :
    findActiveToken [] 7 1 = -1 ∧
    findActiveToken scenarioTokens 0.5 0 = -1 :=
  ⟨findActiveToken_empty_and_before_first.1 7 1,
   findActiveToken_empty_and_before_first.2 scenarioTokens 0.5 0
     (by norm_num [scenarioTokens, List.pairwise_cons])
     (by simp [scenarioTokens])
     (by norm_num [scenarioTokens])⟩

/-- Claim C7: on a token sequence sorted by start time the scan is
monotone in time: for `t1 <= t2` the index selected at `t2` is at least
the index selected at `t1`, with `-1` below every index. -/
theorem findActiveToken_monotone (tokens : List Token)
    (hsort : List.Pairwise (fun a b : Token => a.start ≤ b.start) tokens)
    (t1 t2 off : ℚ) (h12 : t1 ≤ t2) :
    findActiveToken tokens t1 off ≤ findActiveToken tokens t2 off := by
  have hs : t1 + off ≤ t2 + off := by linarith
  unfold findActiveToken
  cases hr1 : findFrom (t1 + off) tokens with
  | none =>
    cases findFrom (t2 + off) tokens with
    | none => exact le_refl _
    | some j =>
      show (-1 : Int) ≤ (j : Int)
      omega
  | some i =>
    have hact1 := findFrom_sound tokens (t1 + off) i hr1
    obtain ⟨wi, hwi, hwis, _⟩ := activeAt_elim tokens (t1 + off) i hact1
    obtain ⟨hi_lt, hi_eq⟩ := List.getElem?_eq_some.mp hwi
    have hwimem : wi ∈ tokens := hi_eq ▸ List.getElem_mem hi_lt
    obtain ⟨j0, hj0⟩ := findFrom_exists (t2 + off) tokens wi hwimem (le_trans hwis hs)
    obtain ⟨j, _, hj⟩ := findFrom_complete tokens (t2 + off) j0 hj0
    rw [hj]
    have hij : i ≤ j := by
      by_contra hlt
      push_neg at hlt
      have hactj := findFrom_sound tokens (t2 + off) j hj
      obtain ⟨wj, hwj, hwjs, hnext⟩ := activeAt_elim tokens (t2 + off) j hactj
      have hj1_lt : j + 1 < tokens.length := by omega
      have hlt2 := hnext (tokens[j + 1]) (List.getElem?_eq_getElem hj1_lt)
      have hle : (tokens[j + 1]).start ≤ wi.start := by
        rcases Nat.lt_or_ge (j + 1) i with h1 | h1
        · have hp := List.pairwise_iff_getElem.mp hsort (j + 1) i hj1_lt hi_lt h1
          rw [hi_eq] at hp
          exact hp
        · have hji : j + 1 = i := by omega
          subst hji
          rw [hi_eq]
      linarith
    show ((i : ℕ) : Int) ≤ ((j : ℕ) : Int)
    omega

/-- Witness for claim C7 at the scenario tokens, between the times of
Scenario B and Scenario A. -/
theorem findActiveToken_monotone_witness :
    List.Pairwise (fun a b : Token => a.start ≤ b.start) scenarioTokens ∧
    (0.5 : ℚ) ≤ 1.6 ∧
    findActiveToken scenarioTokens 0.5 0 ≤ findActiveToken scenarioTokens 1.6 0 :=
  ⟨by norm_num [scenarioTokens, List.pairwise_cons], by norm_num,
   findActiveToken_monotone scenarioTokens
     (by norm_num [scenarioTokens, List.pairwise_cons]) 0.5 1.6 0 (by norm_num)⟩

/-- Claim C5: a lyric click on a loaded player seeks audio and the
stored time to `word.start - syncOffset`, stores the clicked index
immediately, re-enables auto-scroll, and when paused starts playback,
audio, and the 100 ms progress timer. -/
theorem handleLyricClick_spec (st : PlayerState) (word : Token) (index : ℕ)
    (hload : st.audioLoaded = true) :
    (handleLyricClick st word index).audioPosition = word.start - st.syncOffset ∧
    (handleLyricClick st word index).currentTime = word.start - st.syncOffset ∧
    (handleLyricClick st word index).currentWordIndex = (index : Int) ∧
    (handleLyricClick st word index).autoScrollEnabled = true ∧
    (st.isPlaying = false →
      (handleLyricClick st word index).isPlaying = true ∧
      (handleLyricClick st word index).audioPlaying = true ∧
      (handleLyricClick st word index).progressTimer = some progressIntervalMs) := by
  unfold handleLyricClick
  rw [hload]
  by_cases hp : st.isPlaying = true
  · simp [hp]
  · simp [hp]

/-- Witness for claim C5: Scenario D, click on the token with
`start = 42.3` at offset `0.2` from a paused player: audio position
becomes `42.1`, the index is stored, auto-scroll and playback start. -/
theorem handleLyricClick_spec_witness :
    pausedState.audioLoaded = true ∧
    (handleLyricClick pausedState scenarioDToken 7).audioPosition = 42.1 ∧
    (handleLyricClick pausedState scenarioDToken 7).currentWordIndex = 7 ∧
    (handleLyricClick pausedState scenarioDToken 7).autoScrollEnabled = true ∧
    (handleLyricClick pausedState scenarioDToken 7).isPlaying = true ∧
    (handleLyricClick pausedState scenarioDToken 7).progressTimer = some progressIntervalMs := by
  have h := handleLyricClick_spec pausedState scenarioDToken 7 rfl
  obtain ⟨h1, _, h3, h4, h5⟩ := h
  obtain ⟨h6, _, h8⟩ := h5 rfl
  refine ⟨rfl, ?_, h3, h4, h6, h8⟩
  rw [h1]
  norm_num [scenarioDToken, pausedState]

/-- Claim C10: once the stored active index is non-negative, a progress
tick never resets it to `-1`; when the scan finds no active token the
stored index is left unchanged. -/
theorem updateProgress_never_resets_index (lyrics : List Token) (st : PlayerState)
    (h : 0 ≤ st.currentWordIndex) :
    0 ≤ (updateProgress (some lyrics) st).currentWordIndex ∧
    (findActiveToken lyrics st.audioPosition st.syncOffset = -1 →
      (updateProgress (some lyrics) st).currentWordIndex = st.currentWordIndex) := by
  have hge := findActiveToken_cases lyrics st.audioPosition st.syncOffset
  simp only [updateProgress]
  by_cases hl : st.audioLoaded = true
  · rw [if_pos hl]
    by_cases hf : findActiveToken lyrics st.audioPosition st.syncOffset ≠ -1 ∧
        findActiveToken lyrics st.audioPosition st.syncOffset ≠ st.currentWordIndex
    · rw [if_pos hf]
      refine ⟨?_, fun hm => absurd hm hf.1⟩
      rcases hge with h1 | h1
      · exact absurd h1 hf.1
      · exact h1
    · rw [if_neg hf]
      exact ⟨h, fun _ => rfl⟩
  · rw [if_neg hl]
    exact ⟨h, fun _ => rfl⟩

/-- Witness for claim C10: a player with stored index `3` ticking at an
audio position before the only token starts keeps index `3`. -/
theorem updateProgress_never_resets_index_witness :
    0 ≤ tickingState.currentWordIndex ∧
    findActiveToken singleToken tickingState.audioPosition tickingState.syncOffset = -1 ∧
    (updateProgress (some singleToken) tickingState).currentWordIndex =
      tickingState.currentWordIndex :=
  ⟨by decide,
   by norm_num [findActiveToken, findFrom, singleToken, tickingState],
   (updateProgress_never_resets_index singleToken tickingState (by decide)).2
     (by norm_num [findActiveToken, findFrom, singleToken, tickingState])⟩

/-- A tick leaves the session unchanged once both the poll interval and
the watchdog have been cleared. -/
theorem pollTick_frozen (respond : ℕ → Option PollResponse) (k : ℕ) (st : OrchState)
    (h1 : st.pollActive = false) (h2 : st.timeoutActive = false) :
    pollTick respond k st = st := by
  simp [pollTick, h1, h2]

/-- Before the watchdog tick, under non-terminal responses, the session
is still processing, both timers are scheduled, and exactly the polls
`1 .. n` have been issued. -/
theorem orchRun_processing (respond : ℕ → Option PollResponse)
    (h : ∀ k, 1 ≤ k → k ≤ timeoutTicks → ∀ r, respond k = some r → isTerminal r = false) :
    ∀ n, n < timeoutTicks →
      orchRun respond n =
        { karaokeData := false, errorMsg := none, isProcessing := true,
          pollActive := true, timeoutActive := true, polls := List.range' 1 n } := by
  intro n
  induction n with
  | zero => intro _; rfl
  | succ m ih =>
    intro hm
    have hm2 : m < timeoutTicks := by omega
    have hne2 : ¬ (m + 1 = timeoutTicks) := by omega
    have hrange : List.range' 1 m ++ [m + 1] = List.range' 1 (m + 1) := by
      rw [List.range'_1_concat, Nat.add_comm]
    have estep : orchRun respond (m + 1) = pollTick respond (m + 1) (orchRun respond m) := rfl
    rw [estep, ih hm2]
    cases hr : respond (m + 1) with
    | none =>
      simp [pollTick, pollStep, hr, hne2, hrange]
    | some r =>
      have hterm := h (m + 1) (by omega) (by omega) r hr
      have hs1 : ¬ (r.status = "ready") := by
        intro e
        simp [isTerminal, e] at hterm
      have hs2 : ¬ (r.status = "failed" ∨ r.status = "error") := by
        rintro (e | e) <;> simp [isTerminal, e] at hterm
      simp [pollTick, pollStep, hr, hne2, hs1, hs2, hrange]

/-- At the watchdog tick, under non-terminal responses, the session
transitions to the timeout error, processing ends, and both timers are
cleared; polls `1 .. 150` were issued. -/
theorem orchRun_timeout_state (respond : ℕ → Option PollResponse)
    (h : ∀ k, 1 ≤ k → k ≤ timeoutTicks → ∀ r, respond k = some r → isTerminal r = false) :
    orchRun respond timeoutTicks =
      { karaokeData := false, errorMsg := some timeoutErrorText, isProcessing := false,
        pollActive := false, timeoutActive := false,
        polls := List.range' 1 timeoutTicks } := by
  have ht : timeoutTicks = 150 := rfl
  have hrange : List.range' 1 149 ++ [150] = List.range' 1 150 := by decide
  have estep : orchRun respond 150 = pollTick respond 150 (orchRun respond 149) := rfl
  rw [ht, estep, orchRun_processing respond h 149 (by decide)]
  cases hr : respond 150 with
  | none =>
    simp [pollTick, pollStep, timeoutStep, hr, ht, hrange]
  | some r =>
    have hterm := h 150 (by omega) (by decide) r hr
    have hs1 : ¬ (r.status = "ready") := by
      intro e
      simp [isTerminal, e] at hterm
    have hs2 : ¬ (r.status = "failed" ∨ r.status = "error") := by
      rintro (e | e) <;> simp [isTerminal, e] at hterm
    simp [pollTick, pollStep, timeoutStep, hr, hs1, hs2, ht, hrange]

/-- After the watchdog tick nothing changes any more. -/
theorem orchRun_frozen_after (respond : ℕ → Option PollResponse)
    (h : ∀ k, 1 ≤ k → k ≤ timeoutTicks → ∀ r, respond k = some r → isTerminal r = false) :
    ∀ n, timeoutTicks ≤ n → orchRun respond n = orchRun respond timeoutTicks := by
  intro n hn
  induction n, hn using Nat.le_induction with
  | base => rfl
  | succ n hn ih =>
    have hT := orchRun_timeout_state respond h
    have estep : orchRun respond (n + 1) = pollTick respond (n + 1) (orchRun respond n) := rfl
    rw [estep, ih, hT, pollTick_frozen respond (n + 1) _ rfl rfl]

/-- Claim C3: when no poll response with a terminal status (`ready`,
`failed` or `error`) arrives within the 300-second window (ticks
`1 .. 150` of the 2-second poll interval), the session at and after the
watchdog tick is failed with the timeout error, processing has ended,
the poll interval is cancelled, and exactly the polls `1 .. 150` were
ever issued: no polling request is issued after the deadline. -/
theorem processSong_polling_timeout (respond : ℕ → Option PollResponse)
    (h : ∀ k, 1 ≤ k → k ≤ timeoutTicks → ∀ r, respond k = some r → isTerminal r = false) :
    ∀ n, timeoutTicks ≤ n →
      orchRun respond n =
        { karaokeData := false, errorMsg := some timeoutErrorText, isProcessing := false,
          pollActive := false, timeoutActive := false,
          polls := List.range' 1 timeoutTicks } ∧
      ∀ k ∈ (orchRun respond n).polls, k ≤ timeoutTicks := by
  intro n hn
  have he : orchRun respond n = _ :=
    (orchRun_frozen_after respond h n hn).trans (orchRun_timeout_state respond h)
  refine ⟨he, ?_⟩
  rw [he]
  intro k hk
  have := List.mem_range'_1.mp hk
  omega

/-- Witness for claim C3: with every poll answering `processing`, the
session at the watchdog tick carries the timeout error with processing
over and polling stopped, and tick 160 never polls. -/
theorem processSong_polling_timeout_witness :
    (orchRun respondProcessing timeoutTicks).errorMsg = some timeoutErrorText ∧
    (orchRun respondProcessing timeoutTicks).isProcessing = false ∧
    (orchRun respondProcessing timeoutTicks).pollActive = false ∧
    ((160 : ℕ) ∈ (orchRun respondProcessing 200).polls → False) := by
  have hresp : ∀ k, 1 ≤ k → k ≤ timeoutTicks → ∀ r,
      respondProcessing k = some r → isTerminal r = false := by
    intro k _ _ r hr
    injection hr with e
    rw [← e]
    rfl
  have h1 := processSong_polling_timeout respondProcessing hresp timeoutTicks (le_refl _)
  have h2 := processSong_polling_timeout respondProcessing hresp 200 (by decide)
  have ht : timeoutTicks = 150 := rfl
  refine ⟨by rw [h1.1], by rw [h1.1], by rw [h1.1], fun hk => ?_⟩
  have := h2.2 160 hk
  omega

/-- Counterexample for claim C8 as stated: a backend message that
contains the conversion-failure phrase is mapped to the
download-unavailable explanation, not the conversion-failed one, when it
also contains a download phrase, because the source evaluates the
download rule first. -/
theorem classifyError_overlap_cex :
    includesStr cexErrMsg convertPhrase = true ∧
    classifyError cexErrMsg = downloadErrorText ∧
    downloadErrorText ≠ convertErrorText :=
  ⟨by decide, by decide, by decide⟩

/-- Claim C8 (amended): the user-facing error is classified from the
raw backend message by substring match with the rules evaluated in
order (download-unavailable, then conversion-failed, then
separation-failed), the first matching rule winning; a message matching
no rule falls back to the raw message, and an absent message falls back
to the default string. -/
theorem classifyError_first_match (msg : String) :
    ((includesStr msg downloadPhrase1 || includesStr msg downloadPhrase2) = true →
      classifyError msg = downloadErrorText) ∧
    ((includesStr msg downloadPhrase1 || includesStr msg downloadPhrase2) = false →
      includesStr msg convertPhrase = true →
      classifyError msg = convertErrorText) ∧
    ((includesStr msg downloadPhrase1 || includesStr msg downloadPhrase2) = false →
      includesStr msg convertPhrase = false →
      (includesStr msg separationPhrase1 || includesStr msg separationPhrase2) = true →
      classifyError msg = separationErrorText) ∧
    ((includesStr msg downloadPhrase1 || includesStr msg downloadPhrase2) = false →
      includesStr msg convertPhrase = false →
      (includesStr msg separationPhrase1 || includesStr msg separationPhrase2) = false →
      classifyError msg = msg) ∧
    rawErrorMsg none none = defaultErrorText := by
  refine ⟨?_, ?_, ?_, ?_, rfl⟩
  · intro h1
    unfold classifyError
    rw [if_pos h1]
  · intro h1 h2
    unfold classifyError
    rw [if_neg (by simp [h1]), if_pos h2]
  · intro h1 h2 h3
    unfold classifyError
    rw [if_neg (by simp [h1]), if_neg (by simp [h2]), if_pos h3]
  · intro h1 h2 h3
    unfold classifyError
    rw [if_neg (by simp [h1]), if_neg (by simp [h2]), if_neg (by simp [h3])]

/-- Witness for claim C8 (amended) at a message containing only the
conversion-failure phrase. -/
theorem classifyError_first_match_witness :
    (includesStr convertOnlyMsg downloadPhrase1 ||
      includesStr convertOnlyMsg downloadPhrase2) = false ∧
    includesStr convertOnlyMsg convertPhrase = true ∧
    classifyError convertOnlyMsg = convertErrorText :=
  ⟨by decide, by decide,
   (classifyError_first_match convertOnlyMsg).2.1 (by decide) (by decide)⟩

end Karaoke
